import Mathlib

/-!
Verification of the Hashcat Hex Decoder (`convert_hex_to_UTF8.py`).

Python strings are modelled as lists of Unicode code points (`List Nat`),
byte strings as lists of naturals below 256.  The functions below are
shallow embeddings of the source functions, keeping their names.  Library
routines the source calls (`bytes.fromhex`, the strict UTF-8 codec, the
Latin-1 codec, `re.match` on the fixed marker pattern) are embedded with
their CPython semantics.
-/

/-- Code points of a Lean string literal, used for concrete test inputs. -/
def strLit (s : String) : List Nat := s.toList.map (fun c => c.toNat)

/-- Membership test for Python's `\s` class over `str` (the Unicode
whitespace set used by `re.sub(r'\s', '', hex_string)` at line 17). -/
def isPySpace (c : Nat) : Bool :=
  c == 9 || c == 10 || c == 11 || c == 12 || c == 13 ||
  c == 28 || c == 29 || c == 30 || c == 31 || c == 32 ||
  c == 133 || c == 160 || c == 5760 ||
  (8192 ≤ c && c ≤ 8202) || c == 8232 || c == 8233 ||
  c == 8239 || c == 8287 || c == 12288

/-- Hexadecimal digit test matching the regex class `[0-9A-Fa-f]`. -/
def isHexDigitCode (c : Nat) : Bool :=
  (48 ≤ c && c ≤ 57) || (65 ≤ c && c ≤ 70) || (97 ≤ c && c ≤ 102)

/-- Value of one hexadecimal digit, `none` on a non-digit
(the per-character behaviour of `bytes.fromhex`, line 21). -/
def hexVal (c : Nat) : Option Nat :=
  if 48 ≤ c ∧ c ≤ 57 then some (c - 48)
  else if 65 ≤ c ∧ c ≤ 70 then some (c - 55)
  else if 97 ≤ c ∧ c ≤ 102 then some (c - 87)
  else none

/-- `bytes.fromhex` (line 21) on a whitespace-free argument: pairs of hex
digits become bytes; an odd digit count or a non-digit raises `ValueError`,
modelled as `none`. -/
def fromhex : List Nat → Option (List Nat)
  | [] => some []
  | [_] => none
  | c1 :: c2 :: rest =>
    match hexVal c1, hexVal c2, fromhex rest with
    | some h, some l, some bs => some ((16 * h + l) :: bs)
    | _, _, _ => none

/-- Continuation-byte test for strict UTF-8 (second to fourth bytes of a
multi-byte sequence lie in `0x80 .. 0xBF`). -/
def utf8Cont (c : Nat) : Bool := 128 ≤ c && c < 192

/-- Two-byte decoding step: leading byte `0xC2 .. 0xDF` followed by one
continuation byte. -/
def arm2 (b c1 : Nat) (tail : Option (List Nat)) : Option (List Nat) :=
  if utf8Cont c1 then tail.map (fun cs => ((b - 192) * 64 + (c1 - 128)) :: cs) else none

/-- Three-byte decoding step: leading byte `0xE0 .. 0xEF`; the first
continuation byte is restricted after `0xE0` (overlong) and `0xED`
(surrogates), as in CPython's strict codec. -/
def arm3 (b c1 c2 : Nat) (tail : Option (List Nat)) : Option (List Nat) :=
  if utf8Cont c1 ∧ utf8Cont c2 ∧ (b = 224 → 160 ≤ c1) ∧ (b = 237 → c1 < 160) then
    tail.map (fun cs => ((b - 224) * 4096 + (c1 - 128) * 64 + (c2 - 128)) :: cs)
  else none

/-- Four-byte decoding step: leading byte `0xF0 .. 0xF4`; the first
continuation byte is restricted after `0xF0` (overlong) and `0xF4`
(beyond `U+10FFFF`), as in CPython's strict codec. -/
def arm4 (b c1 c2 c3 : Nat) (tail : Option (List Nat)) : Option (List Nat) :=
  if utf8Cont c1 ∧ utf8Cont c2 ∧ utf8Cont c3 ∧ (b = 240 → 144 ≤ c1) ∧ (b = 244 → c1 < 144) then
    tail.map
      (fun cs => ((b - 240) * 262144 + (c1 - 128) * 4096 + (c2 - 128) * 64 + (c3 - 128)) :: cs)
  else none

/-- Strict UTF-8 decoding with explicit fuel.  The fuel only makes the
recursion structural; every step consumes at least one byte, so fuel at
least the list length never runs out. -/
def utf8DecodeF : Nat → List Nat → Option (List Nat)
  | _, [] => some []
  | 0, _ :: _ => none
  | fuel + 1, b :: l =>
    if b < 128 then (utf8DecodeF fuel l).map (fun cs => b :: cs)
    else if 194 ≤ b ∧ b < 224 then
      match l with
      | c1 :: l2 => arm2 b c1 (utf8DecodeF fuel l2)
      | [] => none
    else if 224 ≤ b ∧ b < 240 then
      match l with
      | c1 :: c2 :: l3 => arm3 b c1 c2 (utf8DecodeF fuel l3)
      | _ => none
    else if 240 ≤ b ∧ b < 245 then
      match l with
      | c1 :: c2 :: c3 :: l4 => arm4 b c1 c2 c3 (utf8DecodeF fuel l4)
      | _ => none
    else none

/-- Strict UTF-8 decoding, `bytes_data.decode('utf-8')` at line 28: rejects
stray continuation bytes, overlong forms, surrogates and code points above
`0x10FFFF`, exactly as CPython's strict codec does. -/
def utf8Decode (l : List Nat) : Option (List Nat) := utf8DecodeF l.length l

/-- UTF-8 encoding of one code point (the inverse direction used to state
the round-trip property). -/
def utf8EncodeChar (cp : Nat) : List Nat :=
  if cp < 128 then [cp]
  else if cp < 2048 then [192 + cp / 64, 128 + cp % 64]
  else if cp < 65536 then [224 + cp / 4096, 128 + cp / 64 % 64, 128 + cp % 64]
  else [240 + cp / 262144, 128 + cp / 4096 % 64, 128 + cp / 64 % 64, 128 + cp % 64]

/-- UTF-8 encoding of a code-point sequence. -/
def utf8Encode (cps : List Nat) : List Nat := (cps.map utf8EncodeChar).flatten

/-- Latin-1 decoding, `bytes_data.decode('latin-1')` at line 32: each byte
`0x00 .. 0xFF` maps to the code point of the same value. -/
def latin1Decode : List Nat → Option (List Nat)
  | [] => some []
  | b :: rest => if b < 256 then (latin1Decode rest).map (fun cs => b :: cs) else none

/-- Latin-1 encoding, `text.encode('latin-1')`: total on code points below
256, used to state the round-trip property for the fallback branch. -/
def latin1Encode : List Nat → Option (List Nat)
  | [] => some []
  | cp :: rest => if cp < 256 then (latin1Encode rest).map (fun bs => cp :: bs) else none

/-- Outcome of `convert_hex_to_utf8` (lines 14-35).  The Python function
returns either a plain string (line 28), a `(text, warning)` pair
(line 33), or a `(None, message)` pair (lines 24 and 35). -/
inductive ConvResult where
  | ok (text : List Nat)
  | fallback (text : List Nat)
  | invalidHex
  | decodeErr
  deriving DecidableEq, Repr

/-- `convert_hex_to_utf8` (lines 14-35): strip whitespace, parse hex to
bytes, decode as strict UTF-8, else fall back to Latin-1. -/
def convert_hex_to_utf8 (hex_string : List Nat) : ConvResult :=
  let s := hex_string.filter (fun c => !(isPySpace c))
  match fromhex s with
  | none => ConvResult.invalidHex
  | some bytes_data =>
    match utf8Decode bytes_data with
    | some text => ConvResult.ok text
    | none =>
      match latin1Decode bytes_data with
      | some text => ConvResult.fallback text
      | none => ConvResult.decodeErr

/-- Characterisation of the continuation-byte test. -/
theorem utf8Cont_iff (c : Nat) : utf8Cont c = true ↔ 128 ≤ c ∧ c < 192 := by
  simp [utf8Cont]

/-- Encoding distributes over cons. -/
theorem utf8Encode_cons (c : Nat) (cs : List Nat) :
    utf8Encode (c :: cs) = utf8EncodeChar c ++ utf8Encode cs := rfl

/-- One-byte sequences re-encode to themselves. -/
theorem utf8EncodeChar_one (b : Nat) (hb : b < 128) : utf8EncodeChar b = [b] := by
  simp [utf8EncodeChar, hb]

/-- A decoded two-byte sequence re-encodes to the original bytes. -/
theorem utf8EncodeChar_two (b c1 : Nat) (hb : 194 ≤ b ∧ b < 224)
    (hc1 : 128 ≤ c1 ∧ c1 < 192) :
    utf8EncodeChar ((b - 192) * 64 + (c1 - 128)) = [b, c1] := by
  have h1 : ¬((b - 192) * 64 + (c1 - 128) < 128) := by omega
  have h2 : (b - 192) * 64 + (c1 - 128) < 2048 := by omega
  simp only [utf8EncodeChar, if_neg h1, if_pos h2, List.cons.injEq, and_true]
  omega

/-- A decoded three-byte sequence re-encodes to the original bytes. -/
theorem utf8EncodeChar_three (b c1 c2 : Nat) (hb : 224 ≤ b ∧ b < 240)
    (hc1 : 128 ≤ c1 ∧ c1 < 192) (hc2 : 128 ≤ c2 ∧ c2 < 192)
    (he0 : b = 224 → 160 ≤ c1) :
    utf8EncodeChar ((b - 224) * 4096 + (c1 - 128) * 64 + (c2 - 128)) = [b, c1, c2] := by
  have h1 : ¬((b - 224) * 4096 + (c1 - 128) * 64 + (c2 - 128) < 128) := by omega
  have h2 : ¬((b - 224) * 4096 + (c1 - 128) * 64 + (c2 - 128) < 2048) := by omega
  have h3 : (b - 224) * 4096 + (c1 - 128) * 64 + (c2 - 128) < 65536 := by omega
  simp only [utf8EncodeChar, if_neg h1, if_neg h2, if_pos h3, List.cons.injEq, and_true]
  omega

/-- A decoded four-byte sequence re-encodes to the original bytes. -/
theorem utf8EncodeChar_four (b c1 c2 c3 : Nat) (hb : 240 ≤ b ∧ b < 245)
    (hc1 : 128 ≤ c1 ∧ c1 < 192) (hc2 : 128 ≤ c2 ∧ c2 < 192) (hc3 : 128 ≤ c3 ∧ c3 < 192)
    (hf0 : b = 240 → 144 ≤ c1) :
    utf8EncodeChar ((b - 240) * 262144 + (c1 - 128) * 4096 + (c2 - 128) * 64 + (c3 - 128))
      = [b, c1, c2, c3] := by
  have h1 : ¬((b - 240) * 262144 + (c1 - 128) * 4096 + (c2 - 128) * 64 + (c3 - 128) < 128) := by
    omega
  have h2 : ¬((b - 240) * 262144 + (c1 - 128) * 4096 + (c2 - 128) * 64 + (c3 - 128) < 2048) := by
    omega
  have h3 : ¬((b - 240) * 262144 + (c1 - 128) * 4096 + (c2 - 128) * 64 + (c3 - 128) < 65536) := by
    omega
  simp only [utf8EncodeChar, if_neg h1, if_neg h2, if_neg h3, List.cons.injEq, and_true]
  omega

/-- Round trip for the fuelled decoder: whatever strict UTF-8 decoding
accepts, encoding maps back to exactly the original byte sequence. -/
theorem utf8Encode_utf8DecodeF (fuel : Nat) (l : List Nat) :
    ∀ cps, utf8DecodeF fuel l = some cps → utf8Encode cps = l := by
  induction fuel, l using utf8DecodeF.induct with
  | case1 t =>
    intro cps h
    simp only [utf8DecodeF, Option.some.injEq] at h
    simp [← h, utf8Encode]
  | case2 hd tl =>
    intro cps h
    simp only [utf8DecodeF] at h
    exact Option.noConfusion h
  | case3 fuel b l hb ih =>
    intro cps h
    simp only [utf8DecodeF, if_pos hb, Option.map_eq_some'] at h
    obtain ⟨cs, hcs, rfl⟩ := h
    rw [utf8Encode_cons, utf8EncodeChar_one b hb, ih cs hcs]
    rfl
  | case4 fuel b hb1 hb2 c1 l2 ih =>
    intro cps h
    simp only [utf8DecodeF, if_neg hb1, if_pos hb2, arm2] at h
    by_cases hc : utf8Cont c1
    · rw [if_pos hc, Option.map_eq_some'] at h
      obtain ⟨cs, hcs, rfl⟩ := h
      rw [utf8Encode_cons, utf8EncodeChar_two b c1 hb2 ((utf8Cont_iff c1).mp hc), ih cs hcs]
      rfl
    · rw [if_neg hc] at h
      exact Option.noConfusion h
  | case5 fuel b hb1 hb2 =>
    intro cps h
    simp only [utf8DecodeF, if_neg hb1, if_pos hb2] at h
    exact Option.noConfusion h
  | case6 fuel b hb1 hb2 hb3 c1 c2 l3 ih =>
    intro cps h
    simp only [utf8DecodeF, if_neg hb1, if_neg hb2, if_pos hb3, arm3] at h
    by_cases hc : utf8Cont c1 ∧ utf8Cont c2 ∧ (b = 224 → 160 ≤ c1) ∧ (b = 237 → c1 < 160)
    · rw [if_pos hc, Option.map_eq_some'] at h
      obtain ⟨cs, hcs, rfl⟩ := h
      obtain ⟨hc1, hc2, he0, _⟩ := hc
      rw [utf8Encode_cons,
        utf8EncodeChar_three b c1 c2 hb3 ((utf8Cont_iff c1).mp hc1) ((utf8Cont_iff c2).mp hc2) he0,
        ih cs hcs]
      rfl
    · rw [if_neg hc] at h
      exact Option.noConfusion h
  | case7 fuel b l hb1 hb2 hb3 hshape =>
    intro cps h
    rcases l with _ | ⟨c1, _ | ⟨c2, l3⟩⟩
    · simp only [utf8DecodeF, if_neg hb1, if_neg hb2, if_pos hb3] at h
      exact Option.noConfusion h
    · simp only [utf8DecodeF, if_neg hb1, if_neg hb2, if_pos hb3] at h
      exact Option.noConfusion h
    · exact absurd rfl (hshape c1 c2 l3)
  | case8 fuel b hb1 hb2 hb3 hb4 c1 c2 c3 l4 ih =>
    intro cps h
    simp only [utf8DecodeF, if_neg hb1, if_neg hb2, if_neg hb3, if_pos hb4, arm4] at h
    by_cases hc : utf8Cont c1 ∧ utf8Cont c2 ∧ utf8Cont c3 ∧
        (b = 240 → 144 ≤ c1) ∧ (b = 244 → c1 < 144)
    · rw [if_pos hc, Option.map_eq_some'] at h
      obtain ⟨cs, hcs, rfl⟩ := h
      obtain ⟨hc1, hc2, hc3, hf0, _⟩ := hc
      rw [utf8Encode_cons,
        utf8EncodeChar_four b c1 c2 c3 hb4 ((utf8Cont_iff c1).mp hc1) ((utf8Cont_iff c2).mp hc2)
          ((utf8Cont_iff c3).mp hc3) hf0,
        ih cs hcs]
      rfl
    · rw [if_neg hc] at h
      exact Option.noConfusion h
  | case9 fuel b l hb1 hb2 hb3 hb4 hshape =>
    intro cps h
    rcases l with _ | ⟨c1, _ | ⟨c2, _ | ⟨c3, l4⟩⟩⟩
    · simp only [utf8DecodeF, if_neg hb1, if_neg hb2, if_neg hb3, if_pos hb4] at h
      exact Option.noConfusion h
    · simp only [utf8DecodeF, if_neg hb1, if_neg hb2, if_neg hb3, if_pos hb4] at h
      exact Option.noConfusion h
    · simp only [utf8DecodeF, if_neg hb1, if_neg hb2, if_neg hb3, if_pos hb4] at h
      exact Option.noConfusion h
    · exact absurd rfl (hshape c1 c2 c3 l4)
  | case10 fuel b l hb1 hb2 hb3 hb4 =>
    intro cps h
    simp only [utf8DecodeF, if_neg hb1, if_neg hb2, if_neg hb3, if_neg hb4] at h
    exact Option.noConfusion h

/-- Round trip for `utf8Decode` itself. -/
theorem utf8Encode_utf8Decode (l : List Nat) (cps : List Nat)
    (h : utf8Decode l = some cps) : utf8Encode cps = l :=
  utf8Encode_utf8DecodeF l.length l cps h

/-- Result of `re.match(r'^\$HEX\[([0-9A-Fa-f]+)\]$', s)` (lines 43 and
107): the captured digit group on a match, `none` otherwise.  Python's `$`
also matches just before one final newline.  Giving back digits from the
greedy group can never help `\]` match (no hex digit is `]`), so taking
the maximal digit run is exact. -/
def stripMarker (s : List Nat) : Option (List Nat) :=
  match s with
  | a :: b :: c :: d :: e :: rest =>
    if a = 36 ∧ b = 72 ∧ c = 69 ∧ d = 88 ∧ e = 91 then
      let inner := rest.takeWhile isHexDigitCode
      let rem := rest.dropWhile isHexDigitCode
      if inner ≠ [] ∧ (rem = [93] ∨ rem = [93, 10]) then some inner else none
    else none
  | _ => none

/-- The token `$HEX[` ++ `p` ++ `]`. -/
def hexWrap (p : List Nat) : List Nat := 36 :: 72 :: 69 :: 88 :: 91 :: (p ++ [93])

/-- The spec's declarative marker pattern: the token decomposes as
`$HEX[p]` for a non-empty all-hex-digit `p` (possibly followed by one
final newline, which Python's `$` tolerates). -/
def matchesMarker (s : List Nat) : Prop :=
  ∃ p, p ≠ [] ∧ (∀ c ∈ p, isHexDigitCode c = true) ∧
    (s = hexWrap p ∨ s = hexWrap p ++ [10])

/-- Reasons carried by the `(None, message)` outcomes of
`convert_hex_to_utf8`: line 24 is the invalid-hex message, line 35 the
(unreachable) UTF-8 decode error message. -/
inductive FailReason where
  | InvalidHex
  | Utf8Err
  deriving DecidableEq, Repr

/-- The spec's `DecodeResult` sum type, as produced per token by the
branches of `process_file` (lines 107-126). -/
inductive DecodeResult where
  | Decoded (text : List Nat) (usedFallback : Bool)
  | Unchanged (original : List Nat)
  | Failed (reason : FailReason)
  deriving DecidableEq, Repr

/-- The spec's `decodeToken` contract, as implemented per line in
`process_file` (lines 107-123): non-matching tokens are unchanged,
matching ones are converted. -/
def decodeToken (token : List Nat) : DecodeResult :=
  match stripMarker token with
  | none => DecodeResult.Unchanged token
  | some hex_value =>
    match convert_hex_to_utf8 hex_value with
    | ConvResult.ok text => DecodeResult.Decoded text false
    | ConvResult.fallback text => DecodeResult.Decoded text true
    | ConvResult.invalidHex => DecodeResult.Failed FailReason.InvalidHex
    | ConvResult.decodeErr => DecodeResult.Failed FailReason.Utf8Err

/-- Outcome of `process_hex_string` (lines 40-91) with `output_file=None`:
`fatal` models printing the error to stderr followed by `sys.exit(1)`
(lines 53-56 and 69-72), `printed text warned` models printing
`Decoded: text` to stdout, preceded by a warning when `warned` is true
(lines 88-91). -/
inductive StrOutcome where
  | fatal
  | printed (text : List Nat) (warned : Bool)
  deriving DecidableEq, Repr

/-- `process_hex_string` (lines 40-91): on a marker match the captured hex
is converted (lines 46-59); otherwise the whole raw input is attempted as
hex (lines 63-75). -/
def process_hex_string (hex_input : List Nat) : StrOutcome :=
  match stripMarker hex_input with
  | some hex_value =>
    match convert_hex_to_utf8 hex_value with
    | ConvResult.ok t => StrOutcome.printed t false
    | ConvResult.fallback t => StrOutcome.printed t true
    | ConvResult.invalidHex => StrOutcome.fatal
    | ConvResult.decodeErr => StrOutcome.fatal
  | none =>
    match convert_hex_to_utf8 hex_input with
    | ConvResult.ok t => StrOutcome.printed t false
    | ConvResult.fallback t => StrOutcome.printed t true
    | ConvResult.invalidHex => StrOutcome.fatal
    | ConvResult.decodeErr => StrOutcome.fatal

/-- Kind of a warning recorded by `process_file`: line 117 records the
fallback message, line 120 a `Failed - ...` message with the reason. -/
inductive WarnKind where
  | fallbackUsed
  | failed (reason : FailReason)
  deriving DecidableEq, Repr

/-- `line.rstrip('\n\r')` (line 104): trailing newline and carriage-return
characters are removed. -/
def rstripNL (l : List Nat) : List Nat :=
  (l.reverse.dropWhile (fun c => c == 10 || c == 13)).reverse

/-- Output line and optional warning for one already-rstripped line, the
branch structure of lines 107-126 of `process_file`: decoded text is
emitted, a failed line is passed through unchanged, a non-matching line is
passed through unchanged. -/
def renderLine (line : List Nat) : List Nat × Option WarnKind :=
  match decodeToken line with
  | DecodeResult.Unchanged x => (x, none)
  | DecodeResult.Decoded t false => (t, none)
  | DecodeResult.Decoded t true => (t, some WarnKind.fallbackUsed)
  | DecodeResult.Failed r => (line, some (WarnKind.failed r))

/-- The loop of `process_file` (lines 103-126): lines are processed in
order; `n` is the 1-based number of the first line of `ls`
(`enumerate(f, 1)`).  Returns `(decoded_lines, warnings)`. -/
def processLines : Nat → List (List Nat) → List (List Nat) × List (Nat × WarnKind)
  | _, [] => ([], [])
  | n, l :: rest =>
    let line := rstripNL l
    let (out, w) := renderLine line
    let (outs, ws) := processLines (n + 1) rest
    (out :: outs,
      match w with
      | some k => (n, k) :: ws
      | none => ws)

/-- `process_file` (lines 96-137) up to I/O: the input file's raw lines
(as Python's line iteration yields them, terminators included) are mapped
to `(decoded_lines, warnings)`. -/
def process_file (rawLines : List (List Nat)) : List (List Nat) × List (Nat × WarnKind) :=
  processLines 1 rawLines

/-- The bytes written to the output file, `'\n'.join(decoded_lines) + '\n'`
(line 130), as code points. -/
def joinNL : List (List Nat) → List Nat
  | [] => []
  | [x] => x
  | x :: rest => x ++ 10 :: joinNL rest

/-- Full output-file content produced by `process_file` (line 130). -/
def outputContent (rawLines : List (List Nat)) : List Nat :=
  joinNL (process_file rawLines).1 ++ [10]

/-- Number of lines of a text, counted the way Python's line iteration
does: one line per newline, plus one for a non-empty unterminated tail. -/
def countLines (c : List Nat) : Nat :=
  c.count 10 + (if c.getLast? = some 10 ∨ c = [] then 0 else 1)



/-- A hex-digit value is below 16. -/
theorem hexVal_lt (c v : Nat) (h : hexVal c = some v) : v < 16 := by
  unfold hexVal at h
  split at h
  · injection h with h2; omega
  split at h
  · injection h with h2; omega
  split at h
  · injection h with h2; omega
  · exact Option.noConfusion h

/-- Every byte produced by `bytes.fromhex` is below 256. -/
theorem fromhex_lt (l : List Nat) : ∀ bs, fromhex l = some bs → ∀ b ∈ bs, b < 256 := by
  induction l using fromhex.induct with
  | case1 =>
    intro bs h
    simp only [fromhex, Option.some.injEq] at h
    simp [← h]
  | case2 c =>
    intro bs h
    exact Option.noConfusion h
  | case3 c1 c2 rest hv lv bs0 hrest hc2 hc1 ih =>
    intro bs h
    unfold fromhex at h
    rw [hc1, hc2, hrest] at h
    injection h with h4
    intro b hb
    rw [← h4] at hb
    rcases List.mem_cons.mp hb with hb | hb
    · have := hexVal_lt c1 hv hc1
      have := hexVal_lt c2 lv hc2
      omega
    · exact ih bs0 hrest b hb
  | case4 c1 c2 rest hfail ih =>
    intro bs h
    unfold fromhex at h
    rcases h1 : hexVal c1 with _ | v1 <;> rw [h1] at h
    · exact Option.noConfusion h
    rcases h2 : hexVal c2 with _ | v2 <;> rw [h2] at h
    · exact Option.noConfusion h
    rcases h3 : fromhex rest with _ | bs0 <;> rw [h3] at h
    · exact Option.noConfusion h
    · exact (hfail v1 v2 bs0 h1 h2 h3).elim

/-- `bytes.fromhex` fails on an odd number of digits. -/
theorem fromhex_odd (l : List Nat) (h : l.length % 2 = 1) : fromhex l = none := by
  induction l using fromhex.induct with
  | case1 => simp at h
  | case2 c => rfl
  | case3 c1 c2 rest hv lv bs0 hrest hc2 hc1 ih =>
    have hr : rest.length % 2 = 1 := by simp at h; omega
    rw [ih hr] at hrest
    exact Option.noConfusion hrest
  | case4 c1 c2 rest hfail ih =>
    unfold fromhex
    rcases h1 : hexVal c1 with _ | v1
    · rfl
    rcases h2 : hexVal c2 with _ | v2
    · rfl
    rcases h3 : fromhex rest with _ | bs0
    · rfl
    · exact (hfail v1 v2 bs0 h1 h2 h3).elim

/-- Latin-1 decoding succeeds on every byte sequence and is the identity
on code points. -/
theorem latin1Decode_total (bs : List Nat) (h : ∀ b ∈ bs, b < 256) :
    latin1Decode bs = some bs := by
  induction bs with
  | nil => rfl
  | cons b rest ih =>
    have hb : b < 256 := h b (by simp)
    simp only [latin1Decode, if_pos hb, ih (fun x hx => h x (by simp [hx])),
      Option.map_some']

/-- Latin-1 encoding succeeds on every code-point sequence below 256 and
is the identity. -/
theorem latin1Encode_total (cs : List Nat) (h : ∀ c ∈ cs, c < 256) :
    latin1Encode cs = some cs := by
  induction cs with
  | nil => rfl
  | cons c rest ih =>
    have hc : c < 256 := h c (by simp)
    simp only [latin1Encode, if_pos hc, ih (fun x hx => h x (by simp [hx])),
      Option.map_some']

/-- Hex digits are not whitespace. -/
theorem hex_not_space (c : Nat) (h : isHexDigitCode c = true) : isPySpace c = false := by
  simp only [isHexDigitCode, Bool.or_eq_true, Bool.and_eq_true, decide_eq_true_eq] at h
  simp only [isPySpace, Bool.or_eq_false_iff, Bool.and_eq_false_iff, beq_eq_false_iff_ne,
    ne_eq, decide_eq_false_iff_not, not_le]
  omega

/-- Whitespace stripping leaves an all-hex-digit string untouched. -/
theorem filter_hex_id (p : List Nat) (hp : ∀ c ∈ p, isHexDigitCode c = true) :
    p.filter (fun c => !(isPySpace c)) = p := by
  apply List.filter_eq_self.mpr
  intro c hc
  simp [hex_not_space c (hp c hc)]

/-- On an all-hex-digit run followed by `]`, the greedy digit scan takes
exactly the run and leaves the `]`. -/
theorem scan_hex_bracket (p : List Nat) (hp : ∀ c ∈ p, isHexDigitCode c = true) :
    (p ++ [93]).takeWhile isHexDigitCode = p ∧ (p ++ [93]).dropWhile isHexDigitCode = [93] := by
  induction p with
  | nil => exact ⟨by decide, by decide⟩
  | cons c rest ih =>
    have hc : isHexDigitCode c = true := hp c (by simp)
    have ih2 := ih (fun x hx => hp x (by simp [hx]))
    simp [List.takeWhile_cons, List.dropWhile_cons, hc, ih2.1, ih2.2]

/-- The marker pattern accepts every wrapped non-empty all-hex payload. -/
theorem stripMarker_hexWrap (p : List Nat) (hne : p ≠ [])
    (hp : ∀ c ∈ p, isHexDigitCode c = true) : stripMarker (hexWrap p) = some p := by
  obtain ⟨ht, hd⟩ := scan_hex_bracket p hp
  unfold stripMarker hexWrap
  simp [ht, hd, hne]

/-- A successful marker match decomposes the token as `$HEX[p]` with a
non-empty all-hex payload `p`, possibly followed by one final newline. -/
theorem stripMarker_some (s p : List Nat) (h : stripMarker s = some p) :
    p ≠ [] ∧ (∀ c ∈ p, isHexDigitCode c = true) ∧
      (s = hexWrap p ∨ s = hexWrap p ++ [10]) := by
  unfold stripMarker at h
  rcases s with _ | ⟨a, _ | ⟨b, _ | ⟨c, _ | ⟨d, _ | ⟨e, rest⟩⟩⟩⟩⟩
  · exact Option.noConfusion h
  · exact Option.noConfusion h
  · exact Option.noConfusion h
  · exact Option.noConfusion h
  · exact Option.noConfusion h
  simp only at h
  split at h
  · rename_i hhead
    obtain ⟨rfl, rfl, rfl, rfl, rfl⟩ := hhead
    split at h
    · rename_i hcond
      injection h with h1
      subst h1
      refine ⟨hcond.1, fun x hx => List.mem_takeWhile_imp hx, ?_⟩
      have hsplit : rest.takeWhile isHexDigitCode ++ rest.dropWhile isHexDigitCode = rest :=
        List.takeWhile_append_dropWhile _ _
      rcases hcond.2 with hr | hr
      · left
        simp only [hexWrap, List.cons.injEq, true_and]
        conv_lhs => rw [← hsplit]
        rw [hr]
      · right
        simp only [hexWrap, List.cons_append, List.cons.injEq, true_and, List.append_assoc,
          List.singleton_append]
        conv_lhs => rw [← hsplit]
        rw [hr]
        simp
    · exact Option.noConfusion h
  · exact Option.noConfusion h

/-- A token that fails the marker pattern is classified `Unchanged`. -/
theorem decodeToken_unmatched (s : List Nat) (h : ¬ matchesMarker s) :
    decodeToken s = DecodeResult.Unchanged s := by
  rcases hm : stripMarker s with _ | p
  · unfold decodeToken
    rw [hm]
  · obtain ⟨hne, hall, hdec⟩ := stripMarker_some s p hm
    exact absurd ⟨p, hne, hall, hdec⟩ h

/-- If a payload of hex digits and whitespace contains at least one
whitespace character, the greedy digit scan stops at a whitespace
character. -/
theorem dropWhile_space_head (p : List Nat)
    (hall : ∀ c ∈ p, isHexDigitCode c = true ∨ isPySpace c = true)
    (hsp : ∃ c ∈ p, isPySpace c = true) :
    ∃ w brest, (p ++ [93]).dropWhile isHexDigitCode = w :: brest ∧ isPySpace w = true := by
  induction p with
  | nil => simp at hsp
  | cons c rest ih =>
    by_cases hc : isHexDigitCode c = true
    · have hrest : ∃ x ∈ rest, isPySpace x = true := by
        obtain ⟨x, hx, hxs⟩ := hsp
        rcases List.mem_cons.mp hx with rfl | hx2
        · rw [hex_not_space x hc] at hxs
          exact Bool.noConfusion hxs
        · exact ⟨x, hx2, hxs⟩
      have hres := ih (fun x hx => hall x (by simp [hx])) hrest
      simpa [List.dropWhile_cons, hc] using hres
    · have hcs : isPySpace c = true := by
        rcases hall c (by simp) with h | h
        · exact absurd h hc
        · exact h
      exact ⟨c, rest ++ [93], by simp [List.dropWhile_cons, hc], hcs⟩

/-- A wrapped payload containing whitespace among its hex digits fails
the marker pattern. -/
theorem stripMarker_space (p : List Nat)
    (hall : ∀ c ∈ p, isHexDigitCode c = true ∨ isPySpace c = true)
    (hsp : ∃ c ∈ p, isPySpace c = true) :
    stripMarker (hexWrap p) = none := by
  obtain ⟨w, brest, hd, hw⟩ := dropWhile_space_head p hall hsp
  have hw93 : w ≠ 93 := by
    intro he
    rw [he] at hw
    exact Bool.noConfusion hw
  unfold stripMarker hexWrap
  simp only [hd]
  rw [if_pos (by simp), if_neg]
  rintro ⟨-, h | h⟩ <;> exact hw93 (List.head_eq_of_cons_eq h)

/-- The decoded-lines component of the loop is the per-line render, in
order. -/
theorem processLines_fst (ls : List (List Nat)) :
    ∀ n, (processLines n ls).1 = ls.map (fun l => (renderLine (rstripNL l)).1) := by
  induction ls with
  | nil => intro n; rfl
  | cons l rest ih =>
    intro n
    simp only [processLines, List.map_cons]
    rw [← ih (n + 1)]

/-- A warning produced for line `i` (0-based in the remaining list,
numbered from `n`) is recorded in the warnings component. -/
theorem processLines_warn (ls : List (List Nat)) :
    ∀ n i l k, ls[i]? = some l → (renderLine (rstripNL l)).2 = some k →
      (n + i, k) ∈ (processLines n ls).2 := by
  induction ls with
  | nil =>
    intro n i l k h
    simp at h
  | cons hd rest ih =>
    intro n i l k hget hw
    cases i with
    | zero =>
      simp only [List.getElem?_cons_zero, Option.some.injEq] at hget
      subst hget
      simp [processLines, hw]
    | succ j =>
      have hmem := ih (n + 1) j l k (by simpa using hget) hw
      have harith : n + 1 + j = n + (j + 1) := by omega
      rw [harith] at hmem
      rcases hww : (renderLine (rstripNL hd)).2 with _ | k2 <;>
        simp [processLines, hww, hmem]

/-- Counting newlines in the newline-join of newline-free records. -/
theorem joinNL_count (outs : List (List Nat)) (hne : outs ≠ [])
    (h10 : ∀ o ∈ outs, (10 : Nat) ∉ o) :
    (joinNL outs).count 10 = outs.length - 1 := by
  induction outs with
  | nil => exact absurd rfl hne
  | cons x rest ih =>
    rcases rest with _ | ⟨y, rest2⟩
    · simp [joinNL, List.count_eq_zero.mpr (h10 x (by simp))]
    · have ihr := ih (by simp) (fun o ho => h10 o (List.mem_cons_of_mem x ho))
      have hx : (x.count 10) = 0 := List.count_eq_zero.mpr (h10 x (by simp))
      simp only [joinNL, List.count_append, List.count_cons_self, hx, ihr,
        List.length_cons]
      omega

/-- The output-file content always ends with a newline. -/
theorem outputContent_last (rawLines : List (List Nat)) :
    (outputContent rawLines).getLast? = some 10 := by
  unfold outputContent
  rw [List.getLast?_concat]

/-- C1: for every token `$HEX[p]` with a non-empty even-length hex payload
whose bytes are valid UTF-8, `decodeToken` returns
`Decoded(text, usedFallback=false)` with `text` the strict UTF-8 decoding
of those bytes. -/
theorem decodeToken_valid_utf8 (p bs text : List Nat) (hne : p ≠ [])
    (hp : ∀ c ∈ p, isHexDigitCode c = true) (hbs : fromhex p = some bs)
    (htext : utf8Decode bs = some text) :
    decodeToken (hexWrap p) = DecodeResult.Decoded text false := by
  unfold decodeToken
  rw [stripMarker_hexWrap p hne hp]
  simp only [convert_hex_to_utf8, filter_hex_id p hp, hbs, htext]

/-- C1 witness: `$HEX[48656c6c6f]` decodes to `Hello` without fallback. -/
theorem decodeToken_valid_utf8_witness :
    decodeToken (hexWrap (strLit "48656c6c6f")) = DecodeResult.Decoded (strLit "Hello") false :=
  decodeToken_valid_utf8 (strLit "48656c6c6f") [72, 101, 108, 108, 111] (strLit "Hello")
    (by decide) (by decide) (by decide) (by decide)

/-- C2: Latin-1 decoding succeeds on every byte sequence (identity on
code points), so once `bytes.fromhex` has produced bytes the decode never
terminally fails: the error branch after the Latin-1 attempt (line 35) is
unreachable and `convert_hex_to_utf8` never returns `decodeErr`. -/
theorem latin1_fallback_total :
    (∀ bs, (∀ b ∈ bs, b < 256) → latin1Decode bs = some bs) ∧
      (∀ s, convert_hex_to_utf8 s ≠ ConvResult.decodeErr) := by
  refine ⟨latin1Decode_total, ?_⟩
  intro s
  rcases hfh : fromhex (s.filter (fun c => !(isPySpace c))) with _ | bs
  · simp only [convert_hex_to_utf8, hfh]
    exact fun h => ConvResult.noConfusion h
  · have hl : latin1Decode bs = some bs := latin1Decode_total bs (fromhex_lt _ bs hfh)
    rcases hd : utf8Decode bs with _ | t
    · simp only [convert_hex_to_utf8, hfh, hd, hl]
      exact fun h => ConvResult.noConfusion h
    · simp only [convert_hex_to_utf8, hfh, hd]
      exact fun h => ConvResult.noConfusion h

/-- C2 witness: the single byte `0xE9` (not valid UTF-8) is decoded by the
Latin-1 fallback. -/
theorem latin1_fallback_total_witness : latin1Decode [233] = some [233] :=
  latin1_fallback_total.1 [233] (by decide)

/-- C3: a token matching the marker pattern whose digit count is odd is
`Failed(InvalidHex)`; the non-hex-digit case is vacuous because a marker
match only captures hex digits (second conjunct). -/
theorem decodeToken_odd_failed :
    (∀ p, p ≠ [] → (∀ c ∈ p, isHexDigitCode c = true) → p.length % 2 = 1 →
      decodeToken (hexWrap p) = DecodeResult.Failed FailReason.InvalidHex) ∧
      (∀ s p, stripMarker s = some p → ∀ c ∈ p, isHexDigitCode c = true) := by
  constructor
  · intro p hne hp hodd
    unfold decodeToken
    rw [stripMarker_hexWrap p hne hp]
    have hfh : fromhex (p.filter (fun c => !(isPySpace c))) = none := by
      rw [filter_hex_id p hp]
      exact fromhex_odd p hodd
    simp only [convert_hex_to_utf8, hfh]
  · intro s p h
    exact (stripMarker_some s p h).2.1

/-- C3 witness: `$HEX[4]` fails with invalid hex. -/
theorem decodeToken_odd_failed_witness :
    decodeToken (hexWrap [52]) = DecodeResult.Failed FailReason.InvalidHex :=
  decodeToken_odd_failed.1 [52] (by decide) (by decide) (by decide)

/-- C4: every token that does not decompose per the anchored marker
pattern `^\$HEX\[[0-9A-Fa-f]+\]$` is returned `Unchanged` with its
original content. -/
theorem decodeToken_unmatched_passthrough (s : List Nat) (h : ¬ matchesMarker s) :
    decodeToken s = DecodeResult.Unchanged s :=
  decodeToken_unmatched s h

/-- C4 witness: the line `plain text` passes through unchanged. -/
theorem decodeToken_unmatched_passthrough_witness :
    decodeToken (strLit "plain text") = DecodeResult.Unchanged (strLit "plain text") := by
  apply decodeToken_unmatched_passthrough
  rintro ⟨p, -, -, h | h⟩
  · have h2 := congrArg List.head? h
    rw [show (strLit "plain text").head? = some 112 from rfl,
      show (hexWrap p).head? = some 36 from rfl] at h2
    exact absurd h2 (by decide)
  · have h2 := congrArg List.head? h
    have h3 : (hexWrap p ++ [10]).head? = some 36 := rfl
    rw [show (strLit "plain text").head? = some 112 from rfl, h3] at h2
    exact absurd h2 (by decide)

/-- C5 counterexample: the payload `4 8` strips to the valid even-length
hex `48` (so `convert_hex_to_utf8` accepts it), yet the token `$HEX[4 8]`
does not match the anchored marker pattern and is classified `Unchanged`,
not decoded. -/
theorem whitespace_payload_counterexample :
    convert_hex_to_utf8 (strLit "4 8") = ConvResult.ok (strLit "H") ∧
      decodeToken (strLit "$HEX[4 8]") = DecodeResult.Unchanged (strLit "$HEX[4 8]") := by
  constructor <;> decide

/-- C5 amended: `convert_hex_to_utf8` strips all whitespace from its
argument before interpreting it as hex, but this only takes effect on
content handed to it directly (direct-string mode on unwrapped input,
e.g. `48 65 6c 6c 6f` decodes to `Hello`); a wrapped token `$HEX[p]` with
whitespace among the digits fails the anchored marker pattern and is
classified `Unchanged`. -/
theorem whitespace_stripping_amended :
    (∀ s, convert_hex_to_utf8 s =
      convert_hex_to_utf8 (s.filter (fun c => !(isPySpace c)))) ∧
    (∀ p, (∀ c ∈ p, isHexDigitCode c = true ∨ isPySpace c = true) →
      (∃ c ∈ p, isPySpace c = true) →
      decodeToken (hexWrap p) = DecodeResult.Unchanged (hexWrap p)) ∧
    process_hex_string (strLit "48 65 6c 6c 6f") = StrOutcome.printed (strLit "Hello") false := by
  refine ⟨?_, ?_, by decide⟩
  · intro s
    have hff : (s.filter (fun c => !(isPySpace c))).filter (fun c => !(isPySpace c))
        = s.filter (fun c => !(isPySpace c)) := by
      apply List.filter_eq_self.mpr
      intro a ha
      exact (List.mem_filter.mp ha).2
    simp only [convert_hex_to_utf8, hff]
  · intro p hall hsp
    unfold decodeToken
    rw [stripMarker_space p hall hsp]

/-- C5 amended witness: `$HEX[4 8]` stays unchanged while the unwrapped
`4 8` goes through whitespace stripping. -/
theorem whitespace_stripping_amended_witness :
    decodeToken (hexWrap (strLit "4 8")) = DecodeResult.Unchanged (hexWrap (strLit "4 8")) :=
  whitespace_stripping_amended.2.1 (strLit "4 8") (by decide) (by decide)

/-- C6 counterexample: the single-line input `$HEX[0a]` decodes to a bare
newline, so the written output `"\n\n"` has two lines for one input line. -/
theorem line_count_counterexample :
    countLines (outputContent [strLit "$HEX[0a]"]) = 2 ∧
      [strLit "$HEX[0a]"].length = 1 := by
  constructor <;> decide

/-- C6 amended: file mode emits exactly one record per input line, in
input order, newline-joined with a trailing newline; the output file's
line count equals the input line count provided the input has at least
one line and no emitted record itself contains a newline. -/
theorem process_file_line_correspondence (rawLines : List (List Nat)) :
    (process_file rawLines).1.length = rawLines.length ∧
    (∀ (i : Nat) (l : List Nat), rawLines[i]? = some l →
      (process_file rawLines).1[i]? = some (renderLine (rstripNL l)).1) ∧
    (outputContent rawLines).getLast? = some 10 ∧
    (rawLines ≠ [] → (∀ o ∈ (process_file rawLines).1, (10 : Nat) ∉ o) →
      countLines (outputContent rawLines) = rawLines.length) := by
  have hfst : (process_file rawLines).1
      = rawLines.map (fun l => (renderLine (rstripNL l)).1) := processLines_fst rawLines 1
  refine ⟨?_, ?_, outputContent_last rawLines, ?_⟩
  · rw [hfst, List.length_map]
  · intro i l hget
    rw [hfst, List.getElem?_map, hget, Option.map_some']
  · intro hne h10
    have houts : (process_file rawLines).1 ≠ [] := by
      rw [hfst]
      simpa using hne
    have hcnt : (joinNL (process_file rawLines).1).count 10
        = (process_file rawLines).1.length - 1 := joinNL_count _ houts h10
    have hlen : (process_file rawLines).1.length = rawLines.length := by
      rw [hfst, List.length_map]
    have hlenpos : 0 < rawLines.length := List.length_pos.mpr hne
    unfold countLines
    rw [if_pos (Or.inl (outputContent_last rawLines))]
    unfold outputContent
    rw [List.count_append, hcnt, hlen]
    simp only [List.count_cons_self, List.count_nil]
    omega

/-- C6 amended witness: a two-line input yields a two-line output. -/
theorem process_file_line_correspondence_witness :
    countLines (outputContent [strLit "a\n", strLit "$HEX[48]\n"]) = 2 :=
  (process_file_line_correspondence [strLit "a\n", strLit "$HEX[48]\n"]).2.2.2
    (by decide) (by decide)

/-- C7: in file mode a line whose decode result is `Failed` is emitted
unchanged at its position, a warning with its 1-based number and the
failure reason is recorded, and every other line is still processed (the
output has one record per input line). -/
theorem process_file_failed_line (rawLines : List (List Nat)) (i : Nat) (l : List Nat)
    (r : FailReason) (hget : rawLines[i]? = some l)
    (hfail : decodeToken (rstripNL l) = DecodeResult.Failed r) :
    (process_file rawLines).1[i]? = some (rstripNL l) ∧
      (i + 1, WarnKind.failed r) ∈ (process_file rawLines).2 ∧
      (process_file rawLines).1.length = rawLines.length := by
  have hrender : renderLine (rstripNL l) = (rstripNL l, some (WarnKind.failed r)) := by
    unfold renderLine
    rw [hfail]
  have hfst : (process_file rawLines).1
      = rawLines.map (fun x => (renderLine (rstripNL x)).1) := processLines_fst rawLines 1
  refine ⟨?_, ?_, ?_⟩
  · rw [hfst, List.getElem?_map, hget, Option.map_some', hrender]
  · have hmem := processLines_warn rawLines 1 i l (WarnKind.failed r) hget
      (by rw [hrender])
    rwa [Nat.add_comm 1 i] at hmem
  · rw [hfst, List.length_map]

/-- C7 witness: the single line `$HEX[4]` is passed through with warning
`Line 1: Failed - ...`. -/
theorem process_file_failed_line_witness :
    (process_file [strLit "$HEX[4]\n"]).1[0]? = some (rstripNL (strLit "$HEX[4]\n")) ∧
      (1, WarnKind.failed FailReason.InvalidHex) ∈ (process_file [strLit "$HEX[4]\n"]).2 ∧
      (process_file [strLit "$HEX[4]\n"]).1.length = [strLit "$HEX[4]\n"].length :=
  process_file_failed_line [strLit "$HEX[4]\n"] 0 (strLit "$HEX[4]\n") FailReason.InvalidHex
    (by decide) (by decide)

/-- C8: in direct-string mode an input without the `$HEX[...]` wrapper is
attempted as raw hex, and on success the decoded text is printed. -/
theorem process_hex_string_raw_hex (s t : List Nat) (hm : stripMarker s = none)
    (hok : convert_hex_to_utf8 s = ConvResult.ok t) :
    process_hex_string s = StrOutcome.printed t false := by
  simp only [process_hex_string, hm, hok]

/-- C8 witness: direct mode with `48656c6c6f` prints `Decoded: Hello`. -/
theorem process_hex_string_raw_hex_witness :
    process_hex_string (strLit "48656c6c6f") = StrOutcome.printed (strLit "Hello") false :=
  process_hex_string_raw_hex (strLit "48656c6c6f") (strLit "Hello") (by decide) (by decide)

/-- C9: in direct-string mode every invalid-hex decode is fatal, modelled
by the `fatal` outcome (error on stderr, `sys.exit(1)`). -/
theorem process_hex_string_invalid_fatal (s : List Nat)
    (h : (∃ p, stripMarker s = some p ∧ convert_hex_to_utf8 p = ConvResult.invalidHex) ∨
      (stripMarker s = none ∧ convert_hex_to_utf8 s = ConvResult.invalidHex)) :
    process_hex_string s = StrOutcome.fatal := by
  rcases h with ⟨p, hp, hc⟩ | ⟨hm, hc⟩
  · simp only [process_hex_string, hp, hc]
  · simp only [process_hex_string, hm, hc]

/-- C9 witness: direct mode with `$HEX[zz]` exits fatally. -/
theorem process_hex_string_invalid_fatal_witness :
    process_hex_string (strLit "$HEX[zz]") = StrOutcome.fatal :=
  process_hex_string_invalid_fatal (strLit "$HEX[zz]") (Or.inr ⟨by decide, by decide⟩)

/-- C10: decoding is lossless: whenever the (whitespace-stripped) payload
parses to bytes, re-encoding the returned text with the encoding actually
used (UTF-8 for `ok`, Latin-1 for `fallback`) restores exactly those
bytes. -/
theorem convert_round_trip (s bs : List Nat)
    (hbs : fromhex (s.filter (fun c => !(isPySpace c))) = some bs) :
    (∀ t, convert_hex_to_utf8 s = ConvResult.ok t → utf8Encode t = bs) ∧
      (∀ t, convert_hex_to_utf8 s = ConvResult.fallback t → latin1Encode t = some bs) := by
  constructor
  · intro t ht
    simp only [convert_hex_to_utf8, hbs] at ht
    rcases hd : utf8Decode bs with _ | text
    · rw [hd] at ht
      rcases hl : latin1Decode bs with _ | t2 <;> rw [hl] at ht <;>
        exact ConvResult.noConfusion ht
    · rw [hd] at ht
      injection ht with h1
      subst h1
      exact utf8Encode_utf8Decode bs text hd
  · intro t ht
    simp only [convert_hex_to_utf8, hbs] at ht
    have hbytes := fromhex_lt _ bs hbs
    rcases hd : utf8Decode bs with _ | text
    · rw [hd, latin1Decode_total bs hbytes] at ht
      injection ht with h1
      subst h1
      exact latin1Encode_total bs hbytes
    · rw [hd] at ht
      exact ConvResult.noConfusion ht

/-- C10 witness: the fallback decode of `e9` re-encodes to the byte
`0xE9`. -/
theorem convert_round_trip_witness : latin1Encode [233] = some [233] :=
  (convert_round_trip (strLit "e9") [233] (by decide)).2 [233] (by decide)
